import Mathlib

/-!
Verification of the Sentimemory conversation-buffer / memory-extraction /
memory-store subsystem (`src/ai/chat_engine.py`, `src/ai/memory.py`).

The Python code is shallowly embedded: the chat engine's mutable state
becomes an explicit `EngineState`, the OpenAI completion calls become
`Except Unit String` parameters (an `.error` value models a raised
exception / timeout), `json.loads` becomes a fuel-indexed executable
parser over `List Char`, and the SQLite `memories` table becomes a list
of rows with the `SELECT ... ORDER BY ... LIMIT` statements modelled as
filter / stable-sort / take.
-/

namespace Sentimemory

/-- JSON values as handled by `json.loads` in the extraction pipeline.
Numbers are modelled as integers (the pipeline only ever handles integer
`importance` values; a fractional number makes the parse fail in this
model). -/
inductive Json where
  | null
  | bool (b : Bool)
  | num (n : Int)
  | str (s : String)
  | arr (elems : List Json)
  | obj (fields : List (String × Json))

/-- Characters stripped by Python's `str.strip()`:
space, tab, LF, CR, VT, FF. -/
def pyWhitespace (c : Char) : Bool :=
  c == ' ' || c == '\t' || c == '\n' || c == '\r' ||
  c == Char.ofNat 11 || c == Char.ofNat 12

/-- Drop matching characters from the end of a list. -/
def dropTrail (p : Char → Bool) (l : List Char) : List Char :=
  (l.reverse.dropWhile p).reverse

/-- Python `str.strip()` on the character list of a string. -/
def pyStripList (l : List Char) : List Char :=
  dropTrail pyWhitespace (l.dropWhile pyWhitespace)

/-- Python `str.strip()`. -/
def pyStrip (s : String) : String := ⟨pyStripList s.data⟩

/-- Python `str.startswith` on character lists. -/
def leadsB : List Char → List Char → Bool
  | [], _ => true
  | _ :: _, [] => false
  | a :: k, b :: s => a == b && leadsB k s

/-- Python `str.endswith` on character lists. -/
def trailsB (k s : List Char) : Bool := leadsB k.reverse s.reverse

/-- Whitespace skipped between JSON tokens (as in Python's `json` module). -/
def jsonWs (c : Char) : Bool :=
  c == ' ' || c == '\t' || c == '\n' || c == '\r'

/-- Skip inter-token whitespace. -/
def skipWs (l : List Char) : List Char := l.dropWhile jsonWs

/-- Parse the body of a JSON string literal (after the opening quote),
returning the decoded characters and the input following the closing
quote.  Escapes are decoded for `\"`, `\\`, `\n`, `\t`, `\r`; other
escaped characters stand for themselves (`\uXXXX` is not modelled). -/
def parseStringBody : Nat → List Char → Option (List Char × List Char)
  | 0, _ => none
  | _ + 1, [] => none
  | n + 1, c :: rest =>
    if c = '"' then some ([], rest)
    else if c = '\\' then
      match rest with
      | [] => none
      | e :: rest2 =>
        let ec := if e = 'n' then '\n' else if e = 't' then '\t'
                  else if e = 'r' then '\r' else e
        match parseStringBody n rest2 with
        | none => none
        | some (cs, rem) => some (ec :: cs, rem)
    else
      match parseStringBody n rest with
      | none => none
      | some (cs, rem) => some (c :: cs, rem)

/-- Decimal value of a digit run. -/
def digitsToNat (l : List Char) : Nat :=
  l.foldl (fun a c => a * 10 + (c.toNat - 48)) 0

/-- Fuel-indexed JSON parser.  `mode = 0` parses one value; `mode = 1`
parses the elements of an array after `[` (at least one element, up to
and including `]`); `mode = 2` parses the fields of an object after `{`
(at least one field, up to and including `}`).  Each step returns the
parsed value and the unconsumed input. -/
def parseF : Nat → Nat → List Char → Option (Json × List Char)
  | 0, _, _ => none
  | n + 1, 0, l =>
    match skipWs l with
    | [] => none
    | c :: rest =>
      if c = '"' then
        match parseStringBody n rest with
        | none => none
        | some (cs, rem) => some (.str ⟨cs⟩, rem)
      else if c = '[' then
        match skipWs rest with
        | ']' :: rem => some (.arr [], rem)
        | _ => parseF n 1 rest
      else if c = '{' then
        match skipWs rest with
        | '}' :: rem => some (.obj [], rem)
        | _ => parseF n 2 rest
      else if c = 't' then
        if leadsB "rue".data rest then some (.bool true, rest.drop 3) else none
      else if c = 'f' then
        if leadsB "alse".data rest then some (.bool false, rest.drop 4) else none
      else if c = 'n' then
        if leadsB "ull".data rest then some (.null, rest.drop 3) else none
      else if c = '-' then
        match rest.takeWhile Char.isDigit, rest.dropWhile Char.isDigit with
        | [], _ => none
        | ds, rem => some (.num (-(digitsToNat ds : Int)), rem)
      else if c.isDigit then
        match (c :: rest).takeWhile Char.isDigit, (c :: rest).dropWhile Char.isDigit with
        | ds, rem => some (.num (digitsToNat ds), rem)
      else none
  | n + 1, 1, l =>
    match parseF n 0 l with
    | none => none
    | some (v, rem) =>
      match skipWs rem with
      | ',' :: r2 =>
        match parseF n 1 r2 with
        | some (.arr vs, r3) => some (.arr (v :: vs), r3)
        | _ => none
      | ']' :: r2 => some (.arr [v], r2)
      | _ => none
  | n + 1, 2, l =>
    match skipWs l with
    | '"' :: rest =>
      match parseStringBody n rest with
      | none => none
      | some (key, rem) =>
        match skipWs rem with
        | ':' :: r2 =>
          match parseF n 0 r2 with
          | none => none
          | some (v, r3) =>
            match skipWs r3 with
            | ',' :: r4 =>
              match parseF n 2 r4 with
              | some (.obj fs, r5) => some (.obj ((⟨key⟩, v) :: fs), r5)
              | _ => none
            | '}' :: r4 => some (.obj [(⟨key⟩, v)], r4)
            | _ => none
        | _ => none
    | _ => none
  | _ + 1, _ + 3, _ => none

/-- `json.loads` on a character list: parse one value and require that
only whitespace follows. -/
def parseJsonList (l : List Char) : Option Json :=
  match parseF (2 * l.length + 4) 0 l with
  | none => none
  | some (v, rem) => if (skipWs rem).isEmpty then some v else none

/-- `json.loads` on a string (`None` models a raised `JSONDecodeError`). -/
def jsonLoads (s : String) : Option Json := parseJsonList s.data

/-- Cleaning step of `ChatEngine._extract_memories_from_conversations`
(lines 275-280): strip, remove a leading ` ```json ` marker, remove a
trailing ` ``` ` marker, strip again. -/
def cleanResponseList (l : List Char) : List Char :=
  let c1 := pyStripList l
  let c2 := if leadsB "```json".data c1 then c1.drop 7 else c1
  let c3 := if trailsB "```".data c2 then c2.take (c2.length - 3) else c2
  pyStripList c3

/-- String-level wrapper for `cleanResponseList`. -/
def cleanResponse (s : String) : String := ⟨cleanResponseList s.data⟩

/-- Sender tag of a chat message (`"user"`, `"ai"` or `"system"`). -/
inductive Sender where
  | user
  | ai
  | system
deriving DecidableEq

/-- A `ChatMessage`: content, sender and creation timestamp.  Timestamps
(`datetime.now().isoformat()` in the source) are modelled by a message
counter. -/
structure ChatMessage where
  content : String
  sender : Sender
  timestamp : Nat
deriving DecidableEq

/-- A `MemoryItem` as constructed by the extraction pipeline.  The Python
constructor stores whatever `memory_data.get(...)` returns, so all four
fields are dynamically typed JSON values.  (The store-assigned `id` and
the creation timestamp are not used by any extraction-level property and
are omitted.) -/
structure MemoryItem where
  content : Json
  category : Json
  importance : Json
  tags : Json

/-- Last-wins lookup in a JSON object's field list (Python dicts built by
`json.loads` keep the last duplicate key). -/
def lookupLast (fields : List (String × Json)) (key : String) : Option Json :=
  match fields.reverse.find? (fun f => f.1 == key) with
  | none => none
  | some f => some f.2

/-- One iteration of the save loop (chat_engine.py lines 285-294):
`MemoryItem(content=d.get('content',''), category=d.get('category','general'),
importance=d.get('importance',3), tags=d.get('tags',[]))`.
`none` models the `AttributeError` raised by `.get` on a non-dict element. -/
def mkMemoryItem : Json → Option MemoryItem
  | .obj fields =>
    some
      { content := (lookupLast fields "content").getD (.str "")
        category := (lookupLast fields "category").getD (.str "general")
        importance := (lookupLast fields "importance").getD (.num 3)
        tags := (lookupLast fields "tags").getD (.arr []) }
  | _ => none

/-- Errors that can propagate out of the `try` block of
`_extract_memories_from_conversations`. -/
inductive PyErr where
  | aiFailure
  | attrError
deriving DecidableEq

/-- The save loop over the parsed list: records added to the store before
a non-dict element aborts the loop, plus whether it aborted. -/
def collectLoop : List Json → List MemoryItem × Bool
  | [] => ([], false)
  | j :: rest =>
    match mkMemoryItem j with
    | none => ([], true)
    | some m =>
      let r := collectLoop rest
      (m :: r.1, r.2)

/-- The `try` block of `_extract_memories_from_conversations` (lines
191-313): call the completion API (an `.error` response models a raised
exception), clean and parse the response, and run the save loop.  The
inner `except json.JSONDecodeError` and the non-list warning branch
return normally; an API exception or a loop `AttributeError` escapes to
the outer handler. -/
def extractTryBlock (resp : Except Unit String) : List MemoryItem × Option PyErr :=
  match resp with
  | .error _ => ([], some .aiFailure)
  | .ok text =>
    match jsonLoads (cleanResponse text) with
    | none => ([], none)
    | some v =>
      match v with
      | .arr items =>
        let r := collectLoop items
        (r.1, if r.2 then some .attrError else none)
      | _ => ([], none)

/-- `_extract_memories_from_conversations` with its control flow explicit:
records stored, plus the exception (if any) that reaches the caller.
Early returns: empty slice; falsy persona id or missing client.  The
trailing `except Exception` swallows whatever escapes the `try` block,
so the second component of the guarded branch is forced to `none`. -/
def extractMemoriesRun (conversations : List ChatMessage)
    (personalityId : Option String) (hasClient : Bool)
    (resp : Except Unit String) : List MemoryItem × Option PyErr :=
  if conversations.isEmpty then ([], none)
  else if personalityId.getD "" = "" || !hasClient then ([], none)
  else ((extractTryBlock resp).1, none)

/-- Records stored by one call of `_extract_memories_from_conversations`. -/
def extractMemories (conversations : List ChatMessage)
    (personalityId : Option String) (hasClient : Bool)
    (resp : Except Unit String) : List MemoryItem :=
  (extractMemoriesRun conversations personalityId hasClient resp).1

/-- Buffer capacity `L` (`self.max_chat_history = 30`). -/
def maxChatHistory : Nat := 30

/-- Eviction batch size `E` (`self.memory_extract_count = 10`). -/
def memoryExtractCount : Nat := 10

/-- The mutable state of a `ChatEngine`: the conversation buffer, the
memory store (rows of the `memories` table as persona-scoped records),
the `PersonalityManager` state (current persona and the loaded persona
ids), the OpenAI-client flag, and a message counter standing in for the
wall clock. -/
structure EngineState where
  chatHistory : List ChatMessage
  memoryStore : List (String × MemoryItem)
  currentPersonality : Option String
  availablePersonalities : List String
  hasClient : Bool
  clock : Nat

/-- Store records added by one extraction call: each extracted item is
inserted under the persona id captured at the start of the call. -/
def storeDelta (st : EngineState) (conversations : List ChatMessage)
    (resp : Except Unit String) : List (String × MemoryItem) :=
  match st.currentPersonality with
  | some p =>
    (extractMemories conversations st.currentPersonality st.hasClient resp).map
      (fun m => (p, m))
  | none => []

/-- Run `_extract_memories_from_conversations` against the engine state:
the buffer is untouched, extracted records are appended to the store. -/
def runExtraction (st : EngineState) (conversations : List ChatMessage)
    (resp : Except Unit String) : EngineState :=
  { st with memoryStore := st.memoryStore ++ storeDelta st conversations resp }

/-- `_manage_chat_history_before_add` (lines 145-171): when the buffer
holds at least `max_chat_history` turns, extract memories from the first
`memory_extract_count` turns and then drop them. -/
def manageChatHistoryBeforeAdd (st : EngineState)
    (resp : Except Unit String) : EngineState :=
  if st.chatHistory.length ≥ maxChatHistory then
    let st1 := runExtraction st (st.chatHistory.take memoryExtractCount) resp
    { st1 with chatHistory := st1.chatHistory.drop memoryExtractCount }
  else st

/-- Append a freshly created `ChatMessage` to the buffer. -/
def appendMessage (st : EngineState) (content : String) (sender : Sender) :
    EngineState :=
  { st with
    chatHistory := st.chatHistory ++ [⟨content, sender, st.clock⟩]
    clock := st.clock + 1 }

/-- Whether `get_current_personality()` returns a personality dict: the
current id must be truthy and present in the loaded personalities. -/
def hasPersonalityB (st : EngineState) : Bool :=
  match st.currentPersonality with
  | none => false
  | some p => !(p == "") && st.availablePersonalities.contains p

/-- `_generate_response`: the reply text appended to the buffer.  Missing
persona or client, or an API exception, produce the apology strings. -/
def generateResponse (st : EngineState) (reply : Except Unit String) : String :=
  if !hasPersonalityB st then "抱歉，我现在无法回复。"
  else if !st.hasClient then "抱歉，AI服务未正确配置。"
  else
    match reply with
    | .ok text => text
    | .error _ => "抱歉，我现在遇到了一些技术问题，无法正常回复。"

/-- `send_message` (lines 111-143): manage the history, append the user
turn, generate a reply (`extractResp` and `replyResp` are the outcomes
of the two completion calls), append the AI turn. -/
def sendMessage (st : EngineState) (content : String)
    (extractResp replyResp : Except Unit String) : EngineState :=
  let st1 := manageChatHistoryBeforeAdd st extractResp
  let st2 := appendMessage st1 content .user
  appendMessage st2 (generateResponse st2 replyResp) .ai

/-- `clear_chat_history` (lines 621-642): if the buffer is non-empty,
extract memories from the entire buffer, then empty it. -/
def clearChatHistory (st : EngineState) (resp : Except Unit String) :
    EngineState :=
  let st1 := if st.chatHistory.length > 0 then runExtraction st st.chatHistory resp
             else st
  { st1 with chatHistory := [] }

/-- `switch_personality` (lines 644-664): on success (`pid` is among the
loaded personalities) the current persona changes and a system message
is appended to the buffer; on failure the state is unchanged. -/
def switchPersonality (st : EngineState) (pid : String) : EngineState :=
  if st.availablePersonalities.contains pid then
    let st1 := { st with currentPersonality := some pid }
    if hasPersonalityB st1 then appendMessage st1 ("已切换到" ++ pid ++ "人格") .system
    else st1
  else st

/-- One public operation on the engine, together with the environment
(completion-call outcomes) it consumes. -/
inductive Op where
  | send (content : String) (extractResp replyResp : Except Unit String)
  | clear (resp : Except Unit String)
  | switchP (pid : String)

/-- Apply one public operation. -/
def applyOp (st : EngineState) : Op → EngineState
  | .send content extractResp replyResp => sendMessage st content extractResp replyResp
  | .clear resp => clearChatHistory st resp
  | .switchP pid => switchPersonality st pid

/-- Run a sequence of public operations. -/
def runOps (st : EngineState) (ops : List Op) : EngineState :=
  ops.foldl applyOp st

/-- The state of a freshly constructed `ChatEngine`: empty buffer and
store; persona state and client flag as produced by initialization. -/
def initState (avail : List String) (pid0 : Option String) (hasClient : Bool) :
    EngineState :=
  { chatHistory := []
    memoryStore := []
    currentPersonality := pid0
    availablePersonalities := avail
    hasClient := hasClient
    clock := 0 }

/-- A row of the SQLite `memories` table.  `tags` is the serialized text
column; `timestamp` is the ISO text column (compared by SQLite with its
byte-wise TEXT collation, modelled by Lean's lexicographic `String`
order); `id` is the autoincrement key. -/
structure MemoryRow where
  id : Nat
  personalityId : String
  content : String
  category : String
  importance : Int
  timestamp : String
  tags : String
deriving DecidableEq

/-- A `MemoryItem` as rebuilt by `get_memories` / `search_memories` from
a row (tags decoded from the text column). -/
structure MemoryOut where
  id : Nat
  content : String
  category : String
  importance : Int
  timestamp : String
  tags : Json

/-- Tag-column decoding in `get_memories` / `search_memories` (lines
183-186, 328-331): `json.loads(row[5]) if row[5] else []`, with any
decoding error caught and replaced by `[]`. -/
def decodeTags (s : String) : Json :=
  if s = "" then .arr []
  else
    match jsonLoads s with
    | none => .arr []
    | some v => v

/-- Rebuild a `MemoryItem` from a fetched row. -/
def rowToItem (r : MemoryRow) : MemoryOut :=
  { id := r.id
    content := r.content
    category := r.category
    importance := r.importance
    timestamp := r.timestamp
    tags := decodeTags r.tags }

/-- Code-point-wise (byte-wise, for the ASCII timestamps at hand)
lexicographic strict comparison of character lists, modelling SQLite's
BINARY collation on the TEXT `timestamp` column. -/
def charListLtB : List Char → List Char → Bool
  | [], [] => false
  | [], _ :: _ => true
  | _ :: _, [] => false
  | a :: as, b :: bs =>
    if a.toNat < b.toNat then true
    else if b.toNat < a.toNat then false
    else charListLtB as bs

/-- Strict TEXT comparison of two timestamps. -/
def tsLtB (a b : String) : Bool := charListLtB a.data b.data

/-- The `ORDER BY importance DESC, timestamp DESC` comparison: `a` may
come before `b` iff `a` has larger importance, or equal importance and a
later-or-equal timestamp (`tsLtB a.timestamp b.timestamp = false`). -/
def rowOrder (a b : MemoryRow) : Prop :=
  b.importance < a.importance ∨
    (b.importance = a.importance ∧ tsLtB a.timestamp b.timestamp = false)

instance : DecidableRel rowOrder := fun a b =>
  inferInstanceAs (Decidable (b.importance < a.importance ∨
    (b.importance = a.importance ∧ tsLtB a.timestamp b.timestamp = false)))

/-- Stable sort implementing the `ORDER BY` clause (rows arrive in rowid
order; ties beyond both sort keys keep that order). -/
def sortRows (rows : List MemoryRow) : List MemoryRow :=
  List.insertionSort rowOrder rows

/-- The rows of one persona, in table order (`WHERE personality_id = ?`). -/
def personaRows (db : List MemoryRow) (personalityId : String) : List MemoryRow :=
  db.filter (fun r => r.personalityId == personalityId)

/-- `MemoryManager.get_memories` (lines 162-213):
`SELECT ... WHERE personality_id = ? ORDER BY importance DESC,
timestamp DESC LIMIT ?`, each row rebuilt into a `MemoryItem`. -/
def getMemories (db : List MemoryRow) (personalityId : String) (limit : Nat) :
    List MemoryOut :=
  ((sortRows (personaRows db personalityId)).take limit).map rowToItem

/-- ASCII-only lower-casing, as used by SQLite's `LIKE` for its
case-insensitive comparison. -/
def ascLower (c : Char) : Char :=
  if 'A' ≤ c && c ≤ 'Z' then Char.ofNat (c.toNat + 32) else c

/-- Lower-case a character list. -/
def lowerL (l : List Char) : List Char := l.map ascLower

/-- Fuel-indexed SQLite `LIKE` matcher: `%` matches any span, `_` any
single character, other characters match ASCII-case-insensitively. -/
def likeF : Nat → List Char → List Char → Bool
  | 0, _, _ => false
  | _ + 1, [], s => s.isEmpty
  | n + 1, p :: ps, s =>
    if p = '%' then
      likeF n ps s ||
        (match s with
         | [] => false
         | _ :: s2 => likeF n (p :: ps) s2)
    else
      match s with
      | [] => false
      | c :: s2 =>
        if p = '_' then likeF n ps s2
        else ascLower p == ascLower c && likeF n ps s2

/-- SQLite `LIKE`: `likeMatch pattern text`. -/
def likeMatch (p s : List Char) : Bool :=
  likeF (p.length + s.length + 1) p s

/-- `MemoryManager.search_memories` (lines 308-358):
`SELECT ... WHERE personality_id = ? AND content LIKE ? ORDER BY
importance DESC, timestamp DESC` with the pattern `f'%{keyword}%'`. -/
def searchMemories (db : List MemoryRow) (personalityId : String)
    (keyword : String) : List MemoryOut :=
  (sortRows (db.filter (fun r =>
      r.personalityId == personalityId &&
        likeMatch ("%" ++ keyword ++ "%").data r.content.data))).map rowToItem

/-- The ordering claimed by the specification for query results:
importance descending, ties broken by creation timestamp descending
(the earlier record never precedes: `tsLtB a.timestamp b.timestamp` is
false for consecutive results `a`, `b`). -/
def itemOrder (a b : MemoryOut) : Prop :=
  b.importance < a.importance ∨
    (b.importance = a.importance ∧ tsLtB a.timestamp b.timestamp = false)

/-- The specification's search predicate: the keyword occurs in the
content as an (ASCII-)case-insensitive substring. -/
def ciSubstrB (needle hay : String) : Bool :=
  (List.range (hay.data.length + 1)).any
    (fun i => leadsB (lowerL needle.data) (lowerL (hay.data.drop i)))

/-- The search result as worded by the specification: exactly the
persona's rows whose content contains the keyword as a case-insensitive
substring, ordered like `get_memories`.  Compared against
`searchMemories`, which embeds the actual `LIKE` query. -/
def claimSearch (db : List MemoryRow) (personalityId : String)
    (keyword : String) : List MemoryOut :=
  (sortRows (db.filter (fun r =>
      r.personalityId == personalityId && ciSubstrB keyword r.content))).map rowToItem

/-- Whether an operation is a persona switch. -/
def isSwitch : Op → Bool
  | .switchP _ => true
  | _ => false

/-- The backtick character. -/
def bq : Char := Char.ofNat 96

/-- A sample user turn. -/
def msgU : ChatMessage := ⟨"hello", .user, 0⟩

/-- An engine state whose buffer is exactly at the watermark `L = 30`. -/
def stWater : EngineState :=
  { chatHistory := List.replicate 30 msgU
    memoryStore := []
    currentPersonality := some "p"
    availablePersonalities := ["p"]
    hasClient := true
    clock := 30 }

/-- An engine state holding three turns. -/
def stThree : EngineState :=
  { chatHistory := [⟨"a", .user, 0⟩, ⟨"b", .ai, 1⟩, ⟨"c", .user, 2⟩]
    memoryStore := []
    currentPersonality := some "p"
    availablePersonalities := ["p"]
    hasClient := true
    clock := 3 }

/-- Fifteen `send_message` calls (reaching buffer length 30) followed by
one successful persona switch. -/
def opsBreak : List Op :=
  List.replicate 15 (.send "hi" (.ok "x") (.ok "yo")) ++ [.switchP "p2"]

/-- A switch-free operation sequence. -/
def opsOk : List Op :=
  [.send "a" (.ok "x") (.ok "y"), .clear (.ok "[]"),
   .send "b" (.ok "x") (.ok "y")]

/-- Example row: importance 3, created at `t1`. -/
def exR1 : MemoryRow := ⟨1, "p", "m1", "general", 3, "2024-01-01", "[]"⟩

/-- Example row: importance 5, created at `t2`. -/
def exR2 : MemoryRow := ⟨2, "p", "m2", "general", 5, "2024-01-02", "[]"⟩

/-- Example row: importance 3, created at `t3`. -/
def exR3 : MemoryRow := ⟨3, "p", "m3", "general", 3, "2024-01-03", "[]"⟩

/-- The specification's ordering example: importances `[3,5,3]` inserted
at `t1 < t2 < t3`. -/
def exDb : List MemoryRow := [exR1, exR2, exR3]

/-- A row whose content is `"abc"`. -/
def rowAbc : MemoryRow := ⟨1, "p", "abc", "general", 3, "t1", "[]"⟩

/-- A row whose serialized tag column is not valid JSON. -/
def rowBadTags : MemoryRow := ⟨1, "p", "c", "general", 3, "t1", "oops"⟩

/-- A failed completion call stores nothing. -/
theorem extractMemories_error (conv : List ChatMessage) (pid : Option String)
    (hcl : Bool) : extractMemories conv pid hcl (.error ()) = [] := by
  unfold extractMemories extractMemoriesRun
  split
  · rfl
  · split
    · rfl
    · rfl

/-- A falsy persona id or a missing client stores nothing. -/
theorem extractMemories_guard (conv : List ChatMessage) (pid : Option String)
    (hcl : Bool) (resp : Except Unit String)
    (h : pid.getD "" = "" ∨ hcl = false) :
    extractMemories conv pid hcl resp = [] := by
  unfold extractMemories extractMemoriesRun
  rcases h with h | h
  · simp [h]
  · simp [h]

/-- When the completion call fails, or the persona id is falsy, or the
client is missing, an extraction call stores nothing. -/
theorem storeDelta_eq_nil (st : EngineState) (conv : List ChatMessage)
    (resp : Except Unit String)
    (hfail : resp = .error () ∨ st.currentPersonality.getD "" = "" ∨
      st.hasClient = false) :
    storeDelta st conv resp = [] := by
  unfold storeDelta
  cases hp : st.currentPersonality with
  | none => rfl
  | some p =>
    rcases hfail with hf | hf | hf
    · subst hf
      rw [extractMemories_error]
      rfl
    · rw [hp] at hf
      rw [extractMemories_guard _ _ _ _ (Or.inl hf)]
      rfl
    · rw [extractMemories_guard _ _ _ _ (Or.inr hf)]
      rfl

/-- C2: appending via `send_message` to a buffer holding at least `L`
turns extracts exactly the `E` oldest turns (the length-`E` prefix) and
removes them before the new turn is inserted; from a pre-length of
exactly `L` the post-insertion length is `L - E + 1`; the survivors are
a suffix of the original buffer, hence keep their chronological order;
and `E < L`. -/
theorem eviction_exactly_at_watermark (st : EngineState)
    (resp : Except Unit String) (content : String)
    (h : maxChatHistory ≤ st.chatHistory.length) :
    (manageChatHistoryBeforeAdd st resp).chatHistory
        = st.chatHistory.drop memoryExtractCount ∧
    (manageChatHistoryBeforeAdd st resp).memoryStore
        = st.memoryStore ++
            storeDelta st (st.chatHistory.take memoryExtractCount) resp ∧
    (st.chatHistory.take memoryExtractCount).length = memoryExtractCount ∧
    (appendMessage (manageChatHistoryBeforeAdd st resp) content .user).chatHistory
        = st.chatHistory.drop memoryExtractCount ++
            [⟨content, .user, (manageChatHistoryBeforeAdd st resp).clock⟩] ∧
    (st.chatHistory.length = maxChatHistory →
      (appendMessage (manageChatHistoryBeforeAdd st resp) content
          .user).chatHistory.length = maxChatHistory - memoryExtractCount + 1) ∧
    st.chatHistory.drop memoryExtractCount <:+ st.chatHistory ∧
    memoryExtractCount < maxChatHistory := by
  have hge : st.chatHistory.length ≥ maxChatHistory := h
  refine ⟨?_, ?_, ?_, ?_, ?_, List.drop_suffix _ _, by decide⟩
  · simp [manageChatHistoryBeforeAdd, if_pos hge, runExtraction]
  · simp [manageChatHistoryBeforeAdd, if_pos hge, runExtraction]
  · rw [List.length_take]
    have : memoryExtractCount ≤ st.chatHistory.length := by
      simp only [maxChatHistory, memoryExtractCount] at h ⊢
      omega
    omega
  · simp [manageChatHistoryBeforeAdd, if_pos hge, runExtraction, appendMessage]
  · intro hlen
    simp [manageChatHistoryBeforeAdd, if_pos hge, runExtraction, appendMessage,
      hlen, maxChatHistory, memoryExtractCount]

/-- Witness for `eviction_exactly_at_watermark` at a concrete full
buffer. -/
theorem eviction_exactly_at_watermark_witness :
    maxChatHistory ≤ stWater.chatHistory.length ∧
    (manageChatHistoryBeforeAdd stWater (.ok "[]")).chatHistory
      = stWater.chatHistory.drop memoryExtractCount :=
  ⟨by decide,
    (eviction_exactly_at_watermark stWater (.ok "[]") "new" (by decide)).1⟩

/-- C3: when the extraction step fails (completion error, falsy persona
id, or missing client), the eviction slice is still removed from the
buffer and no record is added to the store. -/
theorem failed_extraction_still_evicts (st : EngineState)
    (resp : Except Unit String)
    (hlen : maxChatHistory ≤ st.chatHistory.length)
    (hfail : resp = .error () ∨ st.currentPersonality.getD "" = "" ∨
      st.hasClient = false) :
    (manageChatHistoryBeforeAdd st resp).chatHistory
        = st.chatHistory.drop memoryExtractCount ∧
    (manageChatHistoryBeforeAdd st resp).memoryStore = st.memoryStore := by
  have hge : st.chatHistory.length ≥ maxChatHistory := hlen
  constructor
  · simp [manageChatHistoryBeforeAdd, if_pos hge, runExtraction]
  · simp [manageChatHistoryBeforeAdd, if_pos hge, runExtraction,
      storeDelta_eq_nil st _ resp hfail]

/-- Witness for `failed_extraction_still_evicts`: a completion failure
on a full buffer. -/
theorem failed_extraction_still_evicts_witness :
    (manageChatHistoryBeforeAdd stWater (.error ())).chatHistory
        = stWater.chatHistory.drop memoryExtractCount ∧
    (manageChatHistoryBeforeAdd stWater (.error ())).memoryStore
        = stWater.memoryStore :=
  failed_extraction_still_evicts stWater (.error ()) (by decide) (Or.inl rfl)

/-- C9: `clear_chat_history` on a non-empty buffer runs extraction on
the entire buffer contents as a single batch (not limited to the
eviction batch size) and then empties the buffer. -/
theorem clear_extracts_all_then_empties (st : EngineState)
    (resp : Except Unit String) (h : 0 < st.chatHistory.length) :
    (clearChatHistory st resp).chatHistory = [] ∧
    (clearChatHistory st resp).memoryStore
        = st.memoryStore ++ storeDelta st st.chatHistory resp := by
  constructor
  · simp [clearChatHistory]
  · simp [clearChatHistory, if_pos h, runExtraction]

/-- Witness for `clear_extracts_all_then_empties` on a three-turn
buffer with a successful single-record extraction. -/
theorem clear_extracts_all_then_empties_witness :
    (clearChatHistory stThree (.ok "[\x7b\"content\": \"fact\"\x7d]")).chatHistory
        = [] ∧
    (clearChatHistory stThree
        (.ok "[\x7b\"content\": \"fact\"\x7d]")).memoryStore.length = 1 := by
  refine ⟨(clear_extracts_all_then_empties stThree _ (by decide)).1, ?_⟩
  rw [(clear_extracts_all_then_empties stThree
    (.ok "[\x7b\"content\": \"fact\"\x7d]") (by decide)).2]
  rfl

/-- C4: `_extract_memories_from_conversations` never lets an exception
reach its caller; and when the cleaned response fails to parse as JSON
or parses to a non-list value, no memory record is stored for the slice
(in particular no record is fabricated from the raw response text). -/
theorem extraction_never_raises_and_drops_bad_parse
    (conv : List ChatMessage) (pid : Option String) (hcl : Bool)
    (resp : Except Unit String) :
    (extractMemoriesRun conv pid hcl resp).2 = none ∧
    (∀ text, resp = .ok text →
      (jsonLoads (cleanResponse text) = none ∨
        (∀ items, jsonLoads (cleanResponse text) ≠ some (.arr items))) →
      extractMemories conv pid hcl resp = []) := by
  constructor
  · unfold extractMemoriesRun
    split
    · rfl
    · split
      · rfl
      · rfl
  · intro text hresp hbad
    subst hresp
    unfold extractMemories extractMemoriesRun
    split
    · rfl
    · split
      · rfl
      · show (extractTryBlock (.ok text)).1 = []
        simp only [extractTryBlock]
        rcases hbad with hb | hb
        · rw [hb]
        · cases hv : jsonLoads (cleanResponse text) with
          | none => rfl
          | some v =>
            cases v with
            | arr items => exact absurd hv (hb items)
            | null => rfl
            | bool b => rfl
            | num n => rfl
            | str s => rfl
            | obj fields => rfl

/-- Witness for `extraction_never_raises_and_drops_bad_parse`: a
non-JSON response stores nothing and raises nothing. -/
theorem extraction_never_raises_witness :
    (extractMemoriesRun [msgU] (some "p") true (.ok "oops")).2 = none ∧
    extractMemories [msgU] (some "p") true (.ok "oops") = [] :=
  ⟨(extraction_never_raises_and_drops_bad_parse [msgU] (some "p") true
      (.ok "oops")).1,
    (extraction_never_raises_and_drops_bad_parse [msgU] (some "p") true
      (.ok "oops")).2 "oops" rfl (Or.inl rfl)⟩

/-- C5 counterexample: a parsed object whose `importance` field is the
non-numeric string `"high"` is stored with that string as importance —
it is not coerced to the default 3. -/
theorem importance_not_coerced :
    (extractMemories [msgU] (some "p") true
        (.ok "[\x7b\"content\": \"x\", \"importance\": \"high\"\x7d]")).map
      (fun m => m.importance) = [Json.str "high"] ∧
    Json.str "high" ≠ Json.num 3 :=
  ⟨rfl, fun h => Json.noConfusion h⟩

/-- C5 (amended): for a parsed object, a missing `category` defaults to
`"general"`, missing `tags` default to `[]`, and a missing `importance`
defaults to 3; a present `importance` is passed through unchanged
(non-numeric values included).  The constructed record is exactly what
the save loop stores for that object. -/
theorem memory_item_defaults (fields : List (String × Json)) :
    ∃ m, mkMemoryItem (.obj fields) = some m ∧
      (lookupLast fields "category" = none → m.category = .str "general") ∧
      (lookupLast fields "tags" = none → m.tags = .arr []) ∧
      (lookupLast fields "importance" = none → m.importance = .num 3) ∧
      (∀ v, lookupLast fields "importance" = some v → m.importance = v) ∧
      (∀ rest, collectLoop (Json.obj fields :: rest)
          = ((m :: (collectLoop rest).1), (collectLoop rest).2)) := by
  refine ⟨_, rfl, ?_, ?_, ?_, ?_, ?_⟩
  · intro h
    simp [h]
  · intro h
    simp [h]
  · intro h
    simp [h]
  · intro v h
    simp [h]
  · intro rest
    simp [collectLoop, mkMemoryItem]

/-- Witness for `memory_item_defaults` on an object carrying only a
`content` field. -/
theorem memory_item_defaults_witness :
    ∃ m, mkMemoryItem (.obj [("content", Json.str "x")]) = some m ∧
      m.category = .str "general" ∧ m.tags = .arr [] ∧
      m.importance = .num 3 := by
  obtain ⟨m, h0, h1, h2, h3, _, _⟩ :=
    memory_item_defaults [("content", Json.str "x")]
  exact ⟨m, h0, h1 rfl, h2 rfl, h3 rfl⟩

/-- C1 counterexample: fifteen `send_message` calls bring the buffer to
the maximum length 30, after which one successful `switch_personality`
appends its system message with no eviction check: the buffer length
exceeds `L = 30` immediately after a public operation completes. -/
theorem switch_personality_breaks_bound :
    maxChatHistory <
      (runOps (initState ["p2"] (some "p2") true) opsBreak).chatHistory.length := by
  decide

/-- Length bookkeeping for one non-switch operation: a switch-free
operation keeps the buffer length even and at most 30. -/
theorem applyOp_bound (st : EngineState) (op : Op)
    (hop : isSwitch op = false)
    (h1 : st.chatHistory.length ≤ maxChatHistory)
    (h2 : Even st.chatHistory.length) :
    (applyOp st op).chatHistory.length ≤ maxChatHistory ∧
      Even (applyOp st op).chatHistory.length := by
  cases op with
  | switchP pid => simp [isSwitch] at hop
  | clear resp =>
    constructor
    · simp [applyOp, clearChatHistory, maxChatHistory]
    · simp [applyOp, clearChatHistory]
  | send content extractResp replyResp =>
    have hsend : (applyOp st (.send content extractResp replyResp)).chatHistory.length
        = (manageChatHistoryBeforeAdd st extractResp).chatHistory.length + 2 := by
      simp [applyOp, sendMessage, appendMessage]
    rw [hsend]
    by_cases hfull : st.chatHistory.length ≥ maxChatHistory
    · have hm : (manageChatHistoryBeforeAdd st extractResp).chatHistory.length
          = st.chatHistory.length - memoryExtractCount := by
        simp [manageChatHistoryBeforeAdd, if_pos hfull, runExtraction]
      rw [hm]
      simp only [maxChatHistory, memoryExtractCount] at h1 hfull ⊢
      constructor
      · omega
      · have hlen : st.chatHistory.length = 30 := le_antisymm h1 hfull
        rw [hlen]
        decide
    · have hm : (manageChatHistoryBeforeAdd st extractResp).chatHistory.length
          = st.chatHistory.length := by
        simp [manageChatHistoryBeforeAdd, if_neg hfull]
      rw [hm]
      simp only [maxChatHistory] at hfull ⊢
      constructor
      · rcases h2 with ⟨k, hk⟩
        omega
      · exact h2.add (by decide)

/-- Switch-free runs keep the invariant. -/
theorem runOps_bound (ops : List Op) :
    ∀ st : EngineState, (∀ op ∈ ops, isSwitch op = false) →
      st.chatHistory.length ≤ maxChatHistory →
      Even st.chatHistory.length →
      (runOps st ops).chatHistory.length ≤ maxChatHistory ∧
        Even (runOps st ops).chatHistory.length := by
  induction ops with
  | nil => intro st _ h1 h2; exact ⟨h1, h2⟩
  | cons op ops ih =>
    intro st hops h1 h2
    have hstep := applyOp_bound st op (hops op (List.mem_cons_self op ops)) h1 h2
    exact ih (applyOp st op)
      (fun o ho => hops o (List.mem_cons_of_mem op ho)) hstep.1 hstep.2

/-- C1 (amended): for every sequence of `send_message` and
`clear_chat_history` operations from a fresh engine (no persona
switches), the buffer length after each operation is at most `L = 30`.
(`switch_personality` violates the bound, see
`switch_personality_breaks_bound`.) -/
theorem buffer_bounded_without_switch (avail : List String)
    (pid0 : Option String) (hcl : Bool) (ops : List Op)
    (hops : ∀ op ∈ ops, isSwitch op = false) :
    (runOps (initState avail pid0 hcl) ops).chatHistory.length
      ≤ maxChatHistory :=
  (runOps_bound ops (initState avail pid0 hcl) hops
    (by simp [initState, maxChatHistory]) ⟨0, rfl⟩).1

/-- Witness for `buffer_bounded_without_switch` on a concrete
switch-free sequence. -/
theorem buffer_bounded_without_switch_witness :
    (runOps (initState ["p"] (some "p") true) opsOk).chatHistory.length
      ≤ maxChatHistory :=
  buffer_bounded_without_switch ["p"] (some "p") true opsOk (by decide)

/-- A list starts with itself followed by anything. -/
theorem leadsB_append (k x : List Char) : leadsB k (k ++ x) = true := by
  induction k with
  | nil => rfl
  | cons a k ih => simp [leadsB, ih]

/-- `dropWhile` keeps a list whose head is not whitespace. -/
theorem dropWhile_cons_nonws (c : Char) (l : List Char)
    (h : pyWhitespace c = false) :
    List.dropWhile pyWhitespace (c :: l) = c :: l := by
  simp [List.dropWhile_cons, h]

/-- `dropTrail` keeps a list whose last element is not whitespace. -/
theorem dropTrail_concat_nonws (l : List Char) (c : Char)
    (h : pyWhitespace c = false) :
    dropTrail pyWhitespace (l ++ [c]) = l ++ [c] := by
  unfold dropTrail
  rw [List.reverse_append]
  simp only [List.reverse_cons, List.reverse_nil, List.nil_append,
    List.singleton_append]
  rw [dropWhile_cons_nonws _ _ h]
  simp

/-- A list delimited by backticks is untouched by `strip()`. -/
theorem pyStripList_fenced (mid : List Char) :
    pyStripList ((bq :: mid) ++ [bq]) = (bq :: mid) ++ [bq] := by
  unfold pyStripList
  rw [List.cons_append, dropWhile_cons_nonws _ _ (by decide),
    ← List.cons_append]
  exact dropTrail_concat_nonws _ _ (by decide)

/-- Cleaning a response wrapped in a ` ```json `-tagged fence yields the
stripped payload. -/
theorem cleanResponse_fenced (t : String) :
    cleanResponse ("```json" ++ t ++ "```") = pyStrip t := by
  have h7 : "```json".data = [bq, bq, bq, 'j', 's', 'o', 'n'] := rfl
  have h3 : "```".data = [bq, bq, bq] := rfl
  have hdata : ("```json" ++ t ++ "```").data
      = [bq, bq, bq, 'j', 's', 'o', 'n'] ++ (t.data ++ [bq, bq, bq]) := by
    rw [String.data_append, String.data_append, List.append_assoc, h7, h3]
  show String.mk (cleanResponseList ("```json" ++ t ++ "```").data)
      = String.mk (pyStripList t.data)
  rw [hdata]
  suffices hsuf :
      cleanResponseList
          ([bq, bq, bq, 'j', 's', 'o', 'n'] ++ (t.data ++ [bq, bq, bq]))
        = pyStripList t.data by
    rw [hsuf]
  have hshape : ([bq, bq, bq, 'j', 's', 'o', 'n'] ++ (t.data ++ [bq, bq, bq]))
      = (bq :: ([bq, bq, 'j', 's', 'o', 'n'] ++ (t.data ++ [bq, bq]))) ++ [bq] := by
    simp [List.append_assoc]
  simp only [cleanResponseList]
  rw [hshape, pyStripList_fenced, ← hshape]
  have hc2 : (if leadsB "```json".data
        ([bq, bq, bq, 'j', 's', 'o', 'n'] ++ (t.data ++ [bq, bq, bq])) = true
      then List.drop 7
        ([bq, bq, bq, 'j', 's', 'o', 'n'] ++ (t.data ++ [bq, bq, bq]))
      else [bq, bq, bq, 'j', 's', 'o', 'n'] ++ (t.data ++ [bq, bq, bq]))
      = t.data ++ [bq, bq, bq] := by
    rw [h7, if_pos (leadsB_append _ _)]
    exact List.drop_left' rfl
  rw [hc2]
  have htrail : trailsB "```".data (t.data ++ [bq, bq, bq]) = true := by
    unfold trailsB
    rw [h3, List.reverse_append]
    exact leadsB_append [bq, bq, bq].reverse t.data.reverse
  rw [if_pos htrail]
  rw [List.take_left' (by simp)]

/-- C6 counterexample: the response `"```\n[]\n```"` is a valid JSON
array wrapped in a (plain) fenced code block, yet the cleaning step only
removes a leading ` ```json ` marker, so the leading fence survives, the
parse fails, and no record is stored — the fenced array is treated as a
parse failure. -/
theorem plain_fence_is_parse_failure :
    jsonLoads "[]" = some (.arr []) ∧
    "```\n[]\n```" = "```" ++ "\n[]\n" ++ "```" ∧
    jsonLoads (cleanResponse "```\n[]\n```") = none ∧
    extractMemories [msgU] (some "p") true (.ok "```\n[]\n```") = [] :=
  ⟨rfl, rfl, rfl, rfl⟩

/-- C6 (amended): a generative-text response consisting of a valid JSON
array wrapped in a ` ```json `-tagged fenced block has the fence markers
stripped before parsing, parses successfully, and its records are
stored (such a response is never treated as a parse failure). -/
theorem json_fence_stripped_and_parsed (t : String) (xs : List Json)
    (h : jsonLoads (pyStrip t) = some (.arr xs)) :
    jsonLoads (cleanResponse ("```json" ++ t ++ "```")) = some (.arr xs) ∧
    (∀ conv : List ChatMessage, ∀ p : String, conv.isEmpty = false → (p = "") = False →
      extractMemories conv (some p) true (.ok ("```json" ++ t ++ "```"))
        = (collectLoop xs).1) := by
  have hparse : jsonLoads (cleanResponse ("```json" ++ t ++ "```"))
      = some (.arr xs) := by
    rw [cleanResponse_fenced]
    exact h
  refine ⟨hparse, ?_⟩
  intro conv p hconv hp
  unfold extractMemories extractMemoriesRun
  rw [hconv]
  have hguard : (decide ((some p).getD "" = "") || !true) = false := by
    simp
    intro hpe
    exact (hp ▸ hpe : False)
  simp only [Bool.false_eq_true, if_false, hguard]
  show (extractTryBlock (.ok ("```json" ++ t ++ "```"))).1 = _
  simp only [extractTryBlock]
  rw [hparse]

/-- Witness for `json_fence_stripped_and_parsed` on the payload
`"\n[]\n"`. -/
theorem json_fence_stripped_and_parsed_witness :
    jsonLoads (cleanResponse ("```json" ++ "\n[]\n" ++ "```"))
      = some (.arr []) ∧
    extractMemories [msgU] (some "p") true
        (.ok ("```json" ++ "\n[]\n" ++ "```")) = [] := by
  have h := json_fence_stripped_and_parsed "\n[]\n" [] rfl
  exact ⟨h.1, h.2 [msgU] "p" rfl (by simp)⟩

/-- `charListLtB` is asymmetric. -/
theorem charListLtB_asymm :
    ∀ x y : List Char, charListLtB x y = true → charListLtB y x = false := by
  intro x
  induction x with
  | nil =>
    intro y h
    cases y with
    | nil => simp [charListLtB] at h
    | cons b bs => rfl
  | cons a as ih =>
    intro y h
    cases y with
    | nil => simp [charListLtB] at h
    | cons b bs =>
      simp only [charListLtB] at h ⊢
      by_cases h1 : a.toNat < b.toNat
      · rw [if_neg (show ¬ b.toNat < a.toNat by omega), if_pos h1]
      · by_cases h2 : b.toNat < a.toNat
        · rw [if_neg h1, if_pos h2] at h
          exact absurd h (by simp)
        · rw [if_neg h1, if_neg h2] at h
          rw [if_neg h2, if_neg h1]
          exact ih bs h

/-- Failing `charListLtB` is transitive (the comparison is a linear
order). -/
theorem charListLtB_false_trans :
    ∀ x y z : List Char, charListLtB x y = false → charListLtB y z = false →
      charListLtB x z = false := by
  intro x
  induction x with
  | nil =>
    intro y z hxy hyz
    cases y with
    | nil => exact hyz
    | cons b bs => simp [charListLtB] at hxy
  | cons a as ih =>
    intro y z hxy hyz
    cases y with
    | nil =>
      cases z with
      | nil => rfl
      | cons c cs => simp [charListLtB] at hyz
    | cons b bs =>
      cases z with
      | nil => rfl
      | cons c cs =>
        simp only [charListLtB] at hxy hyz ⊢
        by_cases h1 : a.toNat < b.toNat
        · rw [if_pos h1] at hxy
          exact absurd hxy (by simp)
        · by_cases h2 : b.toNat < c.toNat
          · rw [if_pos h2] at hyz
            exact absurd hyz (by simp)
          · rw [if_neg (show ¬ a.toNat < c.toNat by omega)]
            by_cases h3 : c.toNat < a.toNat
            · rw [if_pos h3]
            · rw [if_neg h3]
              rw [if_neg h1, if_neg (show ¬ b.toNat < a.toNat by omega)] at hxy
              rw [if_neg h2, if_neg (show ¬ c.toNat < b.toNat by omega)] at hyz
              exact ih bs cs hxy hyz

instance : IsTotal MemoryRow rowOrder := by
  constructor
  intro a b
  rcases lt_trichotomy a.importance b.importance with h | h | h
  · exact Or.inr (Or.inl h)
  · cases h4 : tsLtB a.timestamp b.timestamp with
    | false => exact Or.inl (Or.inr ⟨h.symm, h4⟩)
    | true => exact Or.inr (Or.inr ⟨h, charListLtB_asymm _ _ h4⟩)
  · exact Or.inl (Or.inl h)

instance : IsTrans MemoryRow rowOrder := by
  constructor
  intro a b c hab hbc
  rcases hab with h1 | ⟨h1, h1t⟩
  · rcases hbc with h2 | ⟨h2, _⟩
    · exact Or.inl (h2.trans h1)
    · exact Or.inl (h2 ▸ h1)
  · rcases hbc with h2 | ⟨h2, h2t⟩
    · exact Or.inl (h1 ▸ h2)
    · exact Or.inr ⟨h2.trans h1, charListLtB_false_trans _ _ _ h1t h2t⟩

/-- The take of the sorted persona rows is pairwise ordered. -/
theorem take_sortRows_pairwise (rows : List MemoryRow) (lim : Nat) :
    ((sortRows rows).take lim).Pairwise rowOrder :=
  List.Pairwise.sublist (List.take_sublist lim _)
    (List.sorted_insertionSort rowOrder rows)

/-- C7: `get_memories` returns at most `limit` records, all of them the
persona's own, sorted by importance descending with ties broken by
creation timestamp descending; on the specification's example
(importances `[3,5,3]` inserted at `t1 < t2 < t3`) the result order is
`[t2(5), t3(3), t1(3)]`. -/
theorem get_memories_ordered (db : List MemoryRow) (p : String) (lim : Nat) :
    (getMemories db p lim).length ≤ lim ∧
    (∀ m ∈ getMemories db p lim,
      ∃ r ∈ db, r.personalityId = p ∧ rowToItem r = m) ∧
    (getMemories db p lim).Pairwise itemOrder ∧
    getMemories exDb "p" 50 = [rowToItem exR2, rowToItem exR3, rowToItem exR1] := by
  refine ⟨?_, ?_, ?_, rfl⟩
  · unfold getMemories
    rw [List.length_map]
    exact List.length_take_le _ _
  · intro m hm
    unfold getMemories at hm
    obtain ⟨r, hr, hrm⟩ := List.mem_map.mp hm
    have hr2 : r ∈ sortRows (personaRows db p) := List.mem_of_mem_take hr
    have hr3 : r ∈ personaRows db p :=
      (List.mem_insertionSort rowOrder).mp hr2
    have hr4 := List.mem_filter.mp hr3
    exact ⟨r, hr4.1, by simpa using hr4.2, hrm⟩
  · exact (take_sortRows_pairwise (personaRows db p) lim).map rowToItem
      (fun a b h => h)

/-- Witness for `get_memories_ordered`: the most important example
record is returned, and it stems from a row of the persona. -/
theorem get_memories_ordered_witness :
    rowToItem exR2 ∈ getMemories exDb "p" 50 ∧
    ∃ r ∈ exDb, r.personalityId = "p" ∧ rowToItem r = rowToItem exR2 := by
  have hmem : rowToItem exR2 ∈ getMemories exDb "p" 50 := by
    rw [(get_memories_ordered exDb "p" 50).2.2.2]
    exact List.mem_cons_self _ _
  exact ⟨hmem, (get_memories_ordered exDb "p" 50).2.1 (rowToItem exR2) hmem⟩

/-- Updating tag columns commutes with `orderedInsert` (the order never
reads the tag column). -/
theorem orderedInsert_tagsMap (f : String → String) (a : MemoryRow)
    (l : List MemoryRow) :
    List.orderedInsert rowOrder { a with tags := f a.tags }
        (l.map (fun r => { r with tags := f r.tags }))
      = (List.orderedInsert rowOrder a l).map
          (fun r => { r with tags := f r.tags }) := by
  induction l with
  | nil => rfl
  | cons b l ih =>
    by_cases h : rowOrder a b
    · have h2 : rowOrder { a with tags := f a.tags } { b with tags := f b.tags } := h
      simp [List.orderedInsert, if_pos h, if_pos h2]
    · have h2 : ¬ rowOrder { a with tags := f a.tags } { b with tags := f b.tags } := h
      simp [List.orderedInsert, if_neg h, if_neg h2, ih]

/-- Updating tag columns commutes with the `ORDER BY` sort. -/
theorem sortRows_tagsMap (f : String → String) (l : List MemoryRow) :
    sortRows (l.map (fun r => { r with tags := f r.tags }))
      = (sortRows l).map (fun r => { r with tags := f r.tags }) := by
  induction l with
  | nil => rfl
  | cons a l ih =>
    show List.orderedInsert rowOrder { a with tags := f a.tags }
        (sortRows (l.map _)) = _
    rw [ih]
    exact orderedInsert_tagsMap f a (List.insertionSort rowOrder l)

/-- C10: a corrupt serialized tag column never makes `get_memories` or
`search_memories` fail or drop a record: the result length depends only
on the persona's row count and the limit; a returned row whose tag
column is empty or unparseable is still returned, with tags decoded to
the empty list; and rewriting every tag column arbitrarily leaves the
returned record identities (and order) unchanged. -/
theorem corrupt_tags_tolerated (db : List MemoryRow) (p : String) (lim : Nat) :
    (getMemories db p lim).length = min lim (personaRows db p).length ∧
    (∀ r ∈ (sortRows (personaRows db p)).take lim,
      (r.tags = "" ∨ jsonLoads r.tags = none) →
        rowToItem r ∈ getMemories db p lim ∧ (rowToItem r).tags = Json.arr []) ∧
    (∀ f : String → String,
      (getMemories (db.map (fun r => { r with tags := f r.tags })) p lim).map
          (fun m => m.id)
        = (getMemories db p lim).map (fun m => m.id)) ∧
    (∀ keyword : String,
      ∀ r ∈ sortRows (db.filter (fun row => row.personalityId == p &&
          likeMatch ("%" ++ keyword ++ "%").data row.content.data)),
        (r.tags = "" ∨ jsonLoads r.tags = none) →
          rowToItem r ∈ searchMemories db p keyword ∧
            (rowToItem r).tags = Json.arr []) := by
  refine ⟨?_, ?_, ?_, ?_⟩
  · unfold getMemories
    rw [List.length_map, List.length_take]
    have : (sortRows (personaRows db p)).length = (personaRows db p).length :=
      (List.perm_insertionSort rowOrder _).length_eq
    rw [this]
  · intro r hr hc
    refine ⟨List.mem_map_of_mem rowToItem hr, ?_⟩
    show decodeTags r.tags = Json.arr []
    by_cases he : r.tags = ""
    · simp [decodeTags, he]
    · rcases hc with hc | hc
      · exact absurd hc he
      · simp [decodeTags, he, hc]
  · intro f
    unfold getMemories personaRows
    rw [List.filter_map]
    have hpred : ((fun r : MemoryRow => r.personalityId == p) ∘
        (fun r : MemoryRow => { r with tags := f r.tags }))
        = (fun r : MemoryRow => r.personalityId == p) := rfl
    rw [hpred, sortRows_tagsMap, ← List.map_take]
    simp only [List.map_map]
    rfl
  · intro keyword r hr hc
    refine ⟨List.mem_map_of_mem rowToItem hr, ?_⟩
    show decodeTags r.tags = Json.arr []
    by_cases he : r.tags = ""
    · simp [decodeTags, he]
    · rcases hc with hc | hc
      · exact absurd hc he
      · simp [decodeTags, he, hc]

/-- Witness for `corrupt_tags_tolerated`: a row whose tag column is the
non-JSON text `"oops"` is still listed, with empty tags. -/
theorem corrupt_tags_tolerated_witness :
    rowToItem rowBadTags ∈ getMemories [rowBadTags] "p" 50 ∧
    (rowToItem rowBadTags).tags = Json.arr [] :=
  (corrupt_tags_tolerated [rowBadTags] "p" 50).2.1 rowBadTags (by decide)
    (Or.inr rfl)

/-- One unfolding step of the `LIKE` matcher. -/
theorem likeF_succ (k : Nat) (a : Char) (ps s : List Char) :
    likeF (k + 1) (a :: ps) s
      = if a = '%' then
          (likeF k ps s ||
            (match s with | [] => false | _ :: s2 => likeF k (a :: ps) s2))
        else
          match s with
          | [] => false
          | c :: s2 =>
            if a = '_' then likeF k ps s2
            else ascLower a == ascLower c && likeF k ps s2 := rfl

/-- The `LIKE` matcher does not depend on its fuel, once the fuel
exceeds the combined input length. -/
theorem likeF_eq (n : Nat) : ∀ (m : Nat) (p s : List Char),
    p.length + s.length < n → p.length + s.length < m →
    likeF n p s = likeF m p s := by
  induction n with
  | zero =>
    intro m p s hn _
    exact absurd hn (Nat.not_lt_zero _)
  | succ n ih =>
    intro m p s hn hm
    cases m with
    | zero => exact absurd hm (Nat.not_lt_zero _)
    | succ m =>
      cases p with
      | nil => rfl
      | cons a ps =>
        have hn' : ps.length + s.length < n := by
          simp only [List.length_cons] at hn
          omega
        have hm' : ps.length + s.length < m := by
          simp only [List.length_cons] at hm
          omega
        rw [likeF_succ, likeF_succ]
        by_cases ha : a = '%'
        · rw [if_pos ha, if_pos ha, ih m ps s hn' hm']
          cases s with
          | nil => rfl
          | cons c s2 =>
            have e2 : likeF n (a :: ps) s2 = likeF m (a :: ps) s2 := by
              apply ih
              · simp only [List.length_cons] at hn ⊢
                omega
              · simp only [List.length_cons] at hm ⊢
                omega
            show (likeF m ps (c :: s2) || likeF n (a :: ps) s2)
              = (likeF m ps (c :: s2) || likeF m (a :: ps) s2)
            rw [e2]
        · rw [if_neg ha, if_neg ha]
          cases s with
          | nil => rfl
          | cons c s2 =>
            have e3 : likeF n ps s2 = likeF m ps s2 := by
              apply ih
              · simp only [List.length_cons] at hn ⊢
                omega
              · simp only [List.length_cons] at hm ⊢
                omega
            show (if a = '_' then likeF n ps s2
                else ascLower a == ascLower c && likeF n ps s2)
              = (if a = '_' then likeF m ps s2
                else ascLower a == ascLower c && likeF m ps s2)
            rw [e3]

/-- Unfolding `likeMatch` for a leading `%` against the empty text. -/
theorem likeMatch_star_nil (ps : List Char) :
    likeMatch ('%' :: ps) [] = likeMatch ps [] := by
  show likeF (('%' :: ps).length + 1) ('%' :: ps) [] = _
  have h : ('%' :: ps).length + 1 = (ps.length + 1) + 1 := rfl
  rw [h, likeF_succ, if_pos rfl]
  show (likeF (ps.length + 1) ps [] || false) = likeF (ps.length + 1) ps []
  exact Bool.or_false _

/-- Unfolding `likeMatch` for a leading `%` against non-empty text. -/
theorem likeMatch_star_cons (ps : List Char) (c : Char) (s2 : List Char) :
    likeMatch ('%' :: ps) (c :: s2)
      = (likeMatch ps (c :: s2) || likeMatch ('%' :: ps) s2) := by
  show likeF (('%' :: ps).length + (c :: s2).length + 1) ('%' :: ps) (c :: s2) = _
  have h : ('%' :: ps).length + (c :: s2).length + 1
      = (ps.length + s2.length + 2) + 1 := by
    simp only [List.length_cons]
    omega
  rw [h, likeF_succ, if_pos rfl]
  show (likeF (ps.length + s2.length + 2) ps (c :: s2) ||
      likeF (ps.length + s2.length + 2) ('%' :: ps) s2) = _
  congr 1
  apply likeF_eq
  · simp only [List.length_cons]
    omega
  · simp only [List.length_cons]
    omega

/-- A non-wildcard pattern head fails on empty text. -/
theorem likeMatch_char_nil (a : Char) (ps : List Char) (ha : ¬ a = '%') :
    likeMatch (a :: ps) [] = false := by
  show likeF ((a :: ps).length + 1) (a :: ps) [] = false
  have h : (a :: ps).length + 1 = (ps.length + 1) + 1 := rfl
  rw [h, likeF_succ, if_neg ha]

/-- A non-wildcard pattern head matches case-insensitively. -/
theorem likeMatch_char_cons (a : Char) (ps : List Char) (c : Char)
    (s2 : List Char) (ha : ¬ a = '%') (hu : ¬ a = '_') :
    likeMatch (a :: ps) (c :: s2)
      = (ascLower a == ascLower c && likeMatch ps s2) := by
  show likeF ((a :: ps).length + (c :: s2).length + 1) (a :: ps) (c :: s2) = _
  have h : (a :: ps).length + (c :: s2).length + 1
      = (ps.length + s2.length + 2) + 1 := by
    simp only [List.length_cons]
    omega
  rw [h, likeF_succ, if_neg ha]
  show (if a = '_' then likeF (ps.length + s2.length + 2) ps s2
      else ascLower a == ascLower c && likeF (ps.length + s2.length + 2) ps s2) = _
  rw [if_neg hu]
  congr 1
  apply likeF_eq
  · omega
  · omega

/-- A leading `%` matches iff the rest of the pattern matches some
suffix of the text. -/
theorem likeMatch_star_iff (ps s : List Char) :
    likeMatch ('%' :: ps) s = true ↔ ∃ i, likeMatch ps (s.drop i) = true := by
  induction s with
  | nil =>
    rw [likeMatch_star_nil]
    constructor
    · intro h
      exact ⟨0, h⟩
    · rintro ⟨i, h⟩
      rwa [List.drop_nil] at h
  | cons c s2 ih =>
    rw [likeMatch_star_cons, Bool.or_eq_true]
    constructor
    · rintro (h | h)
      · exact ⟨0, h⟩
      · obtain ⟨i, hi⟩ := ih.mp h
        exact ⟨i + 1, by rwa [List.drop_succ_cons]⟩
    · rintro ⟨i, hi⟩
      cases i with
      | zero => exact Or.inl hi
      | succ j => exact Or.inr (ih.mpr ⟨j, by rwa [List.drop_succ_cons] at hi⟩)

/-- A wildcard-free pattern followed by `%` matches iff the lowered
pattern starts the lowered text. -/
theorem likeMatch_lit_iff : ∀ (k : List Char),
    (∀ c ∈ k, ¬ c = '%' ∧ ¬ c = '_') → ∀ s : List Char,
    likeMatch (k ++ ['%']) s = true ↔ leadsB (lowerL k) (lowerL s) = true := by
  intro k
  induction k with
  | nil =>
    intro _ s
    constructor
    · intro _
      rfl
    · intro _
      refine (likeMatch_star_iff [] s).mpr ⟨s.length, ?_⟩
      rw [List.drop_length]
      rfl
  | cons a k2 ih =>
    intro hk s
    have ha := hk a (List.mem_cons_self a k2)
    have hk2 : ∀ c ∈ k2, ¬ c = '%' ∧ ¬ c = '_' :=
      fun c hc => hk c (List.mem_cons_of_mem _ hc)
    cases s with
    | nil =>
      rw [show (a :: k2) ++ ['%'] = a :: (k2 ++ ['%']) from rfl,
        likeMatch_char_nil _ _ ha.1]
      simp [lowerL, leadsB]
    | cons c s2 =>
      rw [show (a :: k2) ++ ['%'] = a :: (k2 ++ ['%']) from rfl,
        likeMatch_char_cons _ _ _ _ ha.1 ha.2]
      show _ ↔ leadsB (ascLower a :: lowerL k2) (ascLower c :: lowerL s2) = true
      simp only [leadsB, Bool.and_eq_true]
      constructor
      · rintro ⟨h1, h2⟩
        exact ⟨h1, (ih hk2 s2).mp h2⟩
      · rintro ⟨h1, h2⟩
        exact ⟨h1, (ih hk2 s2).mpr h2⟩

/-- For wildcard-free keywords, the `LIKE '%keyword%'` test coincides
with the specification's case-insensitive-substring test. -/
theorem likeMatch_substring_iff (kw content : String)
    (hk : ∀ c ∈ kw.data, ¬ c = '%' ∧ ¬ c = '_') :
    likeMatch ("%" ++ kw ++ "%").data content.data = ciSubstrB kw content := by
  have hdata : ("%" ++ kw ++ "%").data = '%' :: (kw.data ++ ['%']) := by
    rw [String.data_append, String.data_append]
    rfl
  rw [hdata]
  refine Bool.eq_iff_iff.mpr ?_
  show likeMatch _ _ = true ↔ ciSubstrB kw content = true
  rw [likeMatch_star_iff]
  constructor
  · rintro ⟨i, hi⟩
    have h2 := (likeMatch_lit_iff kw.data hk (content.data.drop i)).mp hi
    refine List.any_eq_true.mpr ?_
    by_cases hle : i ≤ content.data.length
    · exact ⟨i, List.mem_range.mpr (by omega), h2⟩
    · refine ⟨content.data.length, List.mem_range.mpr (by omega), ?_⟩
      rw [List.drop_length]
      rw [List.drop_eq_nil_of_le (by omega)] at h2
      exact h2
  · intro h
    obtain ⟨i, hmem, hi⟩ := List.any_eq_true.mp h
    exact ⟨i, (likeMatch_lit_iff kw.data hk _).mpr hi⟩

/-- C8 counterexample: searching for the keyword `"a_c"` returns the
record with content `"abc"` (the SQL `LIKE` underscore matches any
single character), although `"a_c"` is not a case-insensitive substring
of `"abc"` — `search_memories` does not return exactly the substring
matches. -/
theorem like_wildcard_breaks_search :
    searchMemories [rowAbc] "p" "a_c" = [rowToItem rowAbc] ∧
    ciSubstrB "a_c" "abc" = false :=
  ⟨rfl, rfl⟩

/-- C8 (amended): for every keyword containing no SQL `LIKE` wildcard
(`%` or `_`), `search_memories` returns exactly the persona's records
whose content contains the keyword as an (ASCII-)case-insensitive
substring, ordered like `get_memories` (importance descending, ties by
creation timestamp descending). -/
theorem search_matches_substring_spec (db : List MemoryRow) (p kw : String)
    (hk : ∀ c ∈ kw.data, ¬ c = '%' ∧ ¬ c = '_') :
    searchMemories db p kw = claimSearch db p kw ∧
    (searchMemories db p kw).Pairwise itemOrder := by
  constructor
  · unfold searchMemories claimSearch
    congr 1
    congr 1
    apply List.filter_congr
    intro r _
    rw [likeMatch_substring_iff kw r.content hk]
  · unfold searchMemories
    exact List.Pairwise.map rowToItem (fun a b h => h)
      (List.sorted_insertionSort rowOrder _)

/-- Witness for `search_matches_substring_spec` on the wildcard-free
keyword `"b"`. -/
theorem search_matches_substring_spec_witness :
    searchMemories [rowAbc] "p" "b" = claimSearch [rowAbc] "p" "b" :=
  (search_matches_substring_spec [rowAbc] "p" "b" (by decide)).1

end Sentimemory
